import Mathlib

/-!
Verification of the xslog repository: a slog.Handler adapter over zerolog.

The development shallowly embeds the two source files:

* src/context.go — the ambient field store (WithSlogFields /
  slogFieldsFromContext).  Context values are modelled as an association
  list of (key, store id) bindings; the mutable stores live in an explicit
  store heap threaded through the functions.  The two key types of the
  source (logFieldsCtxKey struct and the zero slogFieldsStore struct used
  as the lookup key) are modelled by the two constructors of CtxKey.
* src/zerolog.go — the ZerologHandler: Enabled, Handle, WithAttrs,
  WithGroup, clone and appendAttrToEvent.  The zerolog sink is modelled by
  an Event that accumulates an ordered list of (key, field) pairs; a
  zerolog Dict is an Event used as a nested builder.

slog machine integers: slog levels are Go ints, modelled as Int.  zerolog
levels are small ints, modelled as Int (Debug=0, Info=1, Warn=2, Error=3,
Disabled=7); an event level is enabled iff the logger level is at most
the event level, matching zerolog's lvl < l.level check for loggers built
with Level(..).
-/

namespace Xslog

/-- Payload of a slog KindAny value: nil interface, an error object, or
some other opaque value (identified by a tag). -/
inductive AnyVal where
  | anil
  | aerr (msg : String)
  | aother (tag : Nat)
  deriving DecidableEq

mutual
/-- slog.Value, as a closed tagged variant over the kinds that
appendAttrToEvent dispatches on.  vlogValuer carries the value its
LogValue() call returns (resolution is modelled by the constructor's
argument); vgroup carries the member attributes. -/
inductive SValue where
  | vbool (b : Bool)
  | vint64 (i : Int)
  | vuint64 (n : Nat)
  | vfloat64 (payload : Nat)
  | vdur (d : Int)
  | vtime (t : Int)
  | vstr (s : String)
  | vgroup (g : AttrList)
  | vlogValuer (res : SValue)
  | vany (a : AnyVal)

/-- A list of slog.Attr (key/value pairs), as a dedicated inductive so
that projection can recurse structurally through nested groups. -/
inductive AttrList where
  | anil
  | acons (key : String) (value : SValue) (rest : AttrList)
end

/-- A slog.Attr: key plus value. -/
abbrev SAttr : Type := String × SValue

/-- The zero slog.Attr: empty key, zero slog.Value (whose Kind is
KindAny and whose payload is the nil interface). -/
def zeroAttr : SAttr := ("", SValue.vany AnyVal.anil)

/-- A field rendered into a zerolog event: the typed setters of the sink,
plus nested dictionaries. -/
inductive EField where
  | boolF (b : Bool)
  | intF (i : Int)
  | uintF (n : Nat)
  | floatF (payload : Nat)
  | durF (d : Int)
  | timeF (t : Int)
  | strF (s : String)
  | errF (msg : String)
  | anyF (a : AnyVal)
  | dictF (fs : List (String × EField))

/-- A zerolog Event (also used for zerolog.Dict() builders): an ordered
buffer of key/field pairs, plus the CallerSkipFrame counter. -/
structure Event where
  fields : List (String × EField)
  callerSkip : Nat

/-- Append one key/field pair to the event buffer. -/
def Event.addField (e : Event) (k : String) (f : EField) : Event :=
  { e with fields := e.fields ++ [(k, f)] }

/-- zerolog.Dict(): a fresh empty nested-dictionary builder. -/
def dictNew : Event := ⟨[], 0⟩

/-- Event.Dict(key, dict): append the dictionary under the key.  zerolog
always writes the key and the (possibly empty) dictionary. -/
def Event.dict (e : Event) (k : String) (d : Event) : Event :=
  e.addField k (.dictF d.fields)

/-- Event.Time(key, t): append a timestamp field. -/
def Event.timeField (e : Event) (k : String) (t : Int) : Event :=
  e.addField k (.timeF t)

/-- Event.Str(key, s). -/
def Event.strField (e : Event) (k : String) (s : String) : Event :=
  e.addField k (.strF s)

/-- Event.CallerSkipFrame(n): adds to the skip counter, writes no field. -/
def Event.callerSkipFrame (e : Event) (n : Nat) : Event :=
  { e with callerSkip := e.callerSkip + n }

mutual
/-- appendAttrToEvent from src/zerolog.go: dispatch on the value kind.
A group appends a nested dictionary built from its members; a LogValuer
re-dispatches on the resolved value under the same key; every scalar kind
appends its typed field; a KindAny value holding an error uses the AnErr
convention, any other KindAny payload (including the nil interface of the
zero slog.Value) uses Event.Any, which renders the payload. -/
def appendAttrToEvent (key : String) (v : SValue) (event : Event) : Event :=
  match v with
  | .vgroup g => event.dict key (appendAttrListToEvent g dictNew)
  | .vlogValuer res => appendAttrToEvent key res event
  | .vbool b => event.addField key (.boolF b)
  | .vint64 i => event.addField key (.intF i)
  | .vuint64 n => event.addField key (.uintF n)
  | .vfloat64 x => event.addField key (.floatF x)
  | .vdur d => event.addField key (.durF d)
  | .vtime t => event.addField key (.timeF t)
  | .vstr s => event.addField key (.strF s)
  | .vany (.aerr m) => event.addField key (.errF m)
  | .vany .anil => event.addField key (.anyF .anil)
  | .vany (.aother t) => event.addField key (.anyF (.aother t))

/-- The loop over a group's members inside appendAttrToEvent. -/
def appendAttrListToEvent (l : AttrList) (event : Event) : Event :=
  match l with
  | .anil => event
  | .acons k v rest => appendAttrListToEvent rest (appendAttrToEvent k v event)
end

/-- appendAttrToEvent on a whole slog.Attr. -/
def appendSAttrToEvent (a : SAttr) (event : Event) : Event :=
  appendAttrToEvent a.1 a.2 event

/-- collections.ForEach over a plain attribute slice, folding each
attribute into the event in order. -/
def foldAttrs (attrs : List SAttr) (event : Event) : Event :=
  match attrs with
  | [] => event
  | a :: rest => foldAttrs rest (appendSAttrToEvent a event)

/- ## Ambient field store (src/context.go) -/

/-- The two context-key values the source uses: logFieldsCtxKey\x7b\x7d is
the key WithSlogFields stores under; slogFieldsStoreZero is the zero
slogFieldsStore\x7b\x7d value that slogFieldsFromContext passes to
ctx.Value.  They are distinct types in Go, so they never compare equal. -/
inductive CtxKey where
  | logFieldsCtxKey
  | slogFieldsStoreZero
  deriving DecidableEq

/-- A context: bindings from keys to store ids, innermost binding first
(context.WithValue prepends; Value searches from the innermost scope
outward). -/
abbrev Ctx : Type := List (CtxKey × Nat)

/-- context.Background(). -/
def backgroundCtx : Ctx := []

/-- The heap of allocated slogFieldsStore values: store id maps to the
store's current field list. -/
abbrev StoreHeap : Type := List (List SAttr)

/-- ctx.Value(key): the innermost binding for the key, if any. -/
def ctxValue (ctx : Ctx) (k : CtxKey) : Option Nat :=
  match ctx with
  | [] => none
  | (k', v) :: rest => if k' = k then some v else ctxValue rest k

/-- slogFieldsFromContext: looks the store up under the zero
slogFieldsStore value (not under logFieldsCtxKey). -/
def slogFieldsFromContext (ctx : Ctx) : Option Nat :=
  ctxValue ctx CtxKey.slogFieldsStoreZero

/-- WithSlogFields: if the (buggy) lookup finds no store, allocate a new
store seeded with the attributes and bind it under logFieldsCtxKey in a
derived context; otherwise append to the found store in place and return
the context unchanged. -/
def WithSlogFields (sh : StoreHeap) (ctx : Ctx) (attrs : List SAttr) :
    StoreHeap × Ctx :=
  match slogFieldsFromContext ctx with
  | none =>
      (sh ++ [attrs], (CtxKey.logFieldsCtxKey, sh.length) :: ctx)
  | some id =>
      (sh.set id (sh.getD id [] ++ attrs), ctx)

/- ## ZerologHandler (src/zerolog.go) -/

/-- The zerolog logger: its configured level (Debug=0, Info=1, Warn=2,
Error=3, Fatal=4, Panic=5, NoLevel=6, Disabled=7, Trace=-1). -/
structure Logger where
  level : Int

/-- zerolog event levels used by the handler. -/
def zDebug : Int := 0
def zInfo : Int := 1
def zWarn : Int := 2
def zError : Int := 3

/-- Whether an event at the given zerolog level is enabled for the
logger: zerolog's should() rejects lvl < l.level, and a logger set to
Disabled rejects everything below it. -/
def eventEnabled (log : Logger) (lvl : Int) : Bool :=
  decide (log.level ≤ lvl)

/-- zerolog Level.String() for the four event levels. -/
def zLevelString (lvl : Int) : String :=
  if lvl = zDebug then "debug"
  else if lvl = zInfo then "info"
  else if lvl = zWarn then "warn"
  else "error"

/-- A fresh zerolog event at the given level: carries the level field. -/
def newEvent (lvl : Int) : Event :=
  ⟨[("level", .strF (zLevelString lvl))], 0⟩

/-- HandlerOptions. -/
structure HandlerOptions where
  skipTime : Bool

/-- One open group of the handler: its name and the attributes added
while it was innermost. -/
structure Group where
  name : String
  attrs : List SAttr

/-- The handler: logger, open groups (innermost last), options. -/
structure ZerologHandler where
  log : Logger
  groups : List Group
  opts : HandlerOptions

/-- NewZerologHandler: nil options become the zero options; the handler
starts with exactly one empty unnamed group (make([]group, 1)). -/
def NewZerologHandler (log : Logger) (opts : Option HandlerOptions) :
    ZerologHandler :=
  { log := log
    groups := [⟨"", []⟩]
    opts := opts.getD ⟨false⟩ }

/-- slog levels (Go ints): Debug=-4, Info=0, Warn=4, Error=8. -/
def slogDebug : Int := -4
def slogInfo : Int := 0
def slogWarn : Int := 4
def slogError : Int := 8

/-- The level switch shared by Enabled and Handle: the four recognized
slog levels map to zerolog levels, everything else is unmapped. -/
def slogLevelToZerolog (lvl : Int) : Option Int :=
  if lvl = slogDebug then some zDebug
  else if lvl = slogInfo then some zInfo
  else if lvl = slogWarn then some zWarn
  else if lvl = slogError then some zError
  else none

/-- Go's %+d for slog Level.String: positive offsets get an explicit
plus sign. -/
def signedIntString (v : Int) : String :=
  if 0 < v then "+" ++ toString v else toString v

/-- slog Level.String(). -/
def slogLevelString (lvl : Int) : String :=
  let str := fun (base : String) (val : Int) =>
    if val = 0 then base else base ++ signedIntString val
  if lvl < slogInfo then str "DEBUG" (lvl - slogDebug)
  else if lvl < slogWarn then str "INFO" (lvl - slogInfo)
  else if lvl < slogError then str "WARN" (lvl - slogWarn)
  else str "ERROR" (lvl - slogError)

/-- Enabled: switch over the four recognized slog levels, delegating to
the sink's level gate; the default case reports not enabled. -/
def ZerologHandler.Enabled (h : ZerologHandler) (_ctx : Ctx) (level : Int) :
    Bool :=
  if level = slogDebug then eventEnabled h.log zDebug
  else if level = slogInfo then eventEnabled h.log zInfo
  else if level = slogWarn then eventEnabled h.log zWarn
  else if level = slogError then eventEnabled h.log zError
  else false

/-- A slog.Record: level, optional timestamp (none models the zero
time), program counter, message, and its own attributes in order. -/
structure SRecord where
  level : Int
  time : Option Int
  pc : Nat
  message : String
  attrs : List SAttr

/-- The group walk of Handle, from innermost to outermost (the argument
list is the handler's group list reversed).  isInner marks the i ==
lastIDx iteration.  prev carries the pending (prevName, prev) nested
dictionary from the previous (more inner) named iteration.  An
empty-named group folds its attributes into the top-level event, folds
the record attributes when innermost, folds the ambient store fields
when a store is found and non-empty, and breaks; after the break (or
after the loop ends) a pending named dictionary is attached to the
top-level event.  A named group folds its attributes (plus the record's
when innermost) into a fresh dictionary, nests the pending dictionary
inside it, and continues outward. -/
def walkGroups (sh : StoreHeap) (ctx : Ctx) (recAttrs : List SAttr) :
    List Group → Bool → Event → Option (String × Event) → Event
  | [], _, event, prev =>
      match prev with
      | some (n, p) => if n ≠ "" then event.dict n p else event
      | none => event
  | g :: rest, isInner, event, prev =>
      if g.name = "" then
        let event := foldAttrs g.attrs event
        let event := if isInner then foldAttrs recAttrs event else event
        let event :=
          match slogFieldsFromContext ctx with
          | some id =>
              let fs := sh.getD id []
              if fs.length > 0 then foldAttrs fs event else event
          | none => event
        match prev with
        | some (n, p) => if n ≠ "" then event.dict n p else event
        | none => event
      else
        let d := foldAttrs g.attrs dictNew
        let d := if isInner then foldAttrs recAttrs d else d
        let d :=
          match prev with
          | some (n, p) => d.dict n p
          | none => d
        walkGroups sh ctx recAttrs rest false event (some (g.name, d))

/-- The body of Handle after the level switch succeeded, given the
mapped zerolog level. -/
def handleAt (h : ZerologHandler) (sh : StoreHeap) (ctx : Ctx)
    (r : SRecord) (zl : Int) : Except String (Option (List (String × EField))) :=
  if eventEnabled h.log zl = false then
    .ok none
  else
    let event := newEvent zl
    let event :=
      match r.time with
      | some t => if h.opts.skipTime then event else event.timeField "time" t
      | none => event
    let event := if r.pc ≠ 0 then event.callerSkipFrame r.pc else event
    let event := walkGroups sh ctx r.attrs h.groups.reverse true event none
    let event := if r.message = "" then event else event.strField "message" r.message
    .ok (some event.fields)

/-- Handle: map the record's level to a sink event builder (an
unrecognized level is the "unsupported log level" error), short-circuit
when the event is not enabled, then set timestamp and caller metadata,
walk the groups and emit.  The result is the error, or none when nothing
was emitted, or the emitted event's fields. -/
def ZerologHandler.Handle (h : ZerologHandler) (sh : StoreHeap) (ctx : Ctx)
    (r : SRecord) : Except String (Option (List (String × EField))) :=
  match slogLevelToZerolog r.level with
  | none => .error ("unsupported log level " ++ slogLevelString r.level)
  | some zl => handleAt h sh ctx r zl

/-- WithAttrs on the pure view of the handler: clone, then append the
attributes to the innermost group's list. -/
def appendToLast (groups : List Group) (attrs : List SAttr) : List Group :=
  match groups with
  | [] => []
  | [g] => [⟨g.name, g.attrs ++ attrs⟩]
  | g :: rest => g :: appendToLast rest attrs

/-- ZerologHandler.WithAttrs (pure view). -/
def ZerologHandler.WithAttrs (h : ZerologHandler) (attrs : List SAttr) :
    ZerologHandler :=
  { h with groups := appendToLast h.groups attrs }

/-- ZerologHandler.WithGroup (pure view): an empty name returns the
receiver; otherwise a new empty group is appended. -/
def ZerologHandler.WithGroup (h : ZerologHandler) (name : String) :
    ZerologHandler :=
  if name = "" then h
  else { h with groups := h.groups ++ [⟨name, []⟩] }

/- ## Contexts without a binding under the lookup key -/

/-- A context with no binding under the zero-slogFieldsStore key.  The
key type is unexported in the source package, so every context a client
can build is of this shape. -/
def noStoreKey (ctx : Ctx) : Bool :=
  ctx.all (fun b => b.1 ≠ CtxKey.slogFieldsStoreZero)

/- ## Size of an attribute value tree, and fuelled projection (recursion
depth analysis of appendAttrToEvent) -/

mutual
/-- Size of a value tree: counts the recursive-call sites of
appendAttrToEvent (group members and lazy resolutions). -/
def SValue.size : SValue → Nat
  | .vgroup g => 1 + AttrList.sizeAttrs g
  | .vlogValuer r => 1 + SValue.size r
  | .vbool _ => 1
  | .vint64 _ => 1
  | .vuint64 _ => 1
  | .vfloat64 _ => 1
  | .vdur _ => 1
  | .vtime _ => 1
  | .vstr _ => 1
  | .vany _ => 1

/-- Total size of a member list. -/
def AttrList.sizeAttrs : AttrList → Nat
  | .anil => 0
  | .acons _ v rest => 1 + SValue.size v + AttrList.sizeAttrs rest
end

mutual
/-- appendAttrToEvent with explicit fuel: every recursive call of the
source (descending into a group member list, or re-dispatching on a
resolved lazy value) consumes one fuel unit; exhausted fuel reports
divergence as none.  Leaf kinds perform no recursion. -/
def appendAttrFuel : Nat → String → SValue → Event → Option Event
  | 0, _, _, _ => none
  | n + 1, k, .vgroup g, e =>
      match appendAttrListFuel n g dictNew with
      | some d => some (e.dict k d)
      | none => none
  | n + 1, k, .vlogValuer r, e => appendAttrFuel n k r e
  | _ + 1, k, v, e => some (appendAttrToEvent k v e)
termination_by n _ v _ => (n, sizeOf v)

/-- The member-list loop of the fuelled projection: each member is
projected with the current fuel. -/
def appendAttrListFuel : Nat → AttrList → Event → Option Event
  | _, .anil, e => some e
  | n, .acons k v rest, e =>
      match appendAttrFuel n k v e with
      | some e' => appendAttrListFuel n rest e'
      | none => none
termination_by n l _ => (n, sizeOf l)
end

/- ## Slice/heap memory model of clone, WithAttrs and WithGroup -/

/-- A Go slice header: backing-array id, length and capacity (all the
slices the handler code builds have offset zero). -/
structure Slice where
  id : Nat
  len : Nat
  cap : Nat
  deriving DecidableEq

/-- A heap of backing arrays, addressed by id; each array is its full
backing storage (length = capacity). -/
abbrev HeapOf (α : Type) := List (List α)

/-- Read a backing array. -/
def heapRead {α : Type} (h : HeapOf α) (i : Nat) : List α := h.getD i []

/-- Overwrite a backing array in place. -/
def heapWrite {α : Type} (h : HeapOf α) (i : Nat) (arr : List α) : HeapOf α :=
  h.set i arr

/-- Allocate a fresh backing array; its id is the previous heap size. -/
def allocH {α : Type} (h : HeapOf α) (contents : List α) : HeapOf α × Nat :=
  (h ++ [contents], h.length)

/-- The elements a slice denotes: the first len entries of its backing
array. -/
def readSlice {α : Type} (h : HeapOf α) (s : Slice) : List α :=
  (heapRead h s.id).take s.len

/-- Overwrite arr[start ...] with xs, keeping the rest. -/
def writeRange {α : Type} (arr : List α) (start : Nat) (xs : List α) : List α :=
  arr.take start ++ xs ++ arr.drop (start + xs.length)

/-- Go append: if the backing array has room the new elements are
written in place past len (mutating the shared array); otherwise a fresh
array is allocated and the contents copied. -/
def sliceAppend {α : Type} (h : HeapOf α) (s : Slice) (xs : List α) :
    HeapOf α × Slice :=
  if s.len + xs.length ≤ s.cap then
    (heapWrite h s.id (writeRange (heapRead h s.id) s.len xs),
      ⟨s.id, s.len + xs.length, s.cap⟩)
  else
    let (h', nid) := allocH h (readSlice h s ++ xs)
    (h', ⟨nid, s.len + xs.length, s.len + xs.length⟩)

/-- The nil slice (a zero group's attrs field). -/
def nilSlice : Slice := ⟨0, 0, 0⟩

/-- A group record as stored in the groups backing array: name plus the
header of its attribute slice. -/
structure GroupRef where
  name : String
  attrs : Slice

/-- The zero group record. -/
def defaultGroupRef : GroupRef := ⟨"", nilSlice⟩

/-- The two heaps the handler's storage lives in: group arrays and
attribute arrays. -/
structure Mem where
  gheap : HeapOf GroupRef
  aheap : HeapOf SAttr

/-- The handler as a value holding a slice header into the memory. -/
structure MemHandler where
  log : Logger
  groups : Slice
  opts : HandlerOptions

/-- The loop body of clone: for each source group allocate a fresh
attribute array of capacity len (+ addSizeCap for the last group, at
index lastID), copy the source attributes into it, and record the new
group. -/
def cloneAttrsLoop (aheap : HeapOf SAttr) (gs : List GroupRef)
    (lastID : Nat) (i : Nat) (addSizeCap : Nat) :
    HeapOf SAttr × List GroupRef :=
  match gs with
  | [] => (aheap, [])
  | g :: rest =>
      let srcLen := g.attrs.len
      let capValue := srcLen + (if i = lastID then addSizeCap else 0)
      let contents :=
        readSlice aheap g.attrs ++ List.replicate (capValue - srcLen) zeroAttr
      let alloc1 := allocH aheap contents
      let recres := cloneAttrsLoop alloc1.1 rest lastID (i + 1) addSizeCap
      (recres.1, ⟨g.name, ⟨alloc1.2, srcLen, capValue⟩⟩ :: recres.2)

/-- clone: allocate a fresh groups array of length len(h.groups) and
capacity len+addGroupsCap, and for every group a fresh attribute array
(the innermost presized by addSizeCap), copying the contents; log and
opts are copied by value. -/
def MemHandler.clone (h : MemHandler) (m : Mem)
    (addGroupsCap addSizeCap : Nat) : Mem × MemHandler :=
  let n := h.groups.len
  let gs := readSlice m.gheap h.groups
  let loopres := cloneAttrsLoop m.aheap gs (n - 1) 0 addSizeCap
  let galloc :=
    allocH m.gheap (loopres.2 ++ List.replicate addGroupsCap defaultGroupRef)
  (⟨galloc.1, loopres.1⟩, ⟨h.log, ⟨galloc.2, n, n + addGroupsCap⟩, h.opts⟩)

/-- WithAttrs in the memory model: clone with attribute-capacity
len(attrs), then append the attributes to the innermost group's slice
and store the updated slice header back into the (fresh) groups array. -/
def MemHandler.WithAttrs (h : MemHandler) (m : Mem) (attrs : List SAttr) :
    Mem × MemHandler :=
  let cl := h.clone m 0 attrs.length
  let m1 := cl.1
  let newh := cl.2
  let lastIdx := newh.groups.len - 1
  let lastG := (readSlice m1.gheap newh.groups).getD lastIdx defaultGroupRef
  let app := sliceAppend m1.aheap lastG.attrs attrs
  let arr := heapRead m1.gheap newh.groups.id
  let gheap2 := heapWrite m1.gheap newh.groups.id (arr.set lastIdx ⟨lastG.name, app.2⟩)
  (⟨gheap2, app.1⟩, newh)

/-- WithGroup in the memory model: an empty name returns the receiver;
otherwise clone with one extra group-capacity slot and append a fresh
empty named group to the groups slice. -/
def MemHandler.WithGroup (h : MemHandler) (m : Mem) (name : String) :
    Mem × MemHandler :=
  if name = "" then (m, h)
  else
    let cl := h.clone m 1 0
    let m1 := cl.1
    let newh := cl.2
    let app := sliceAppend m1.gheap newh.groups [⟨name, nilSlice⟩]
    (⟨app.1, m1.aheap⟩, ⟨newh.log, app.2, newh.opts⟩)

/-- NewZerologHandler in the memory model: make([]group, 1) allocates a
one-element groups array holding the zero group. -/
def memNewHandler (m : Mem) (log : Logger) (opts : Option HandlerOptions) :
    Mem × MemHandler :=
  let galloc := allocH m.gheap [defaultGroupRef]
  (⟨galloc.1, m.aheap⟩, ⟨log, ⟨galloc.2, 1, 1⟩, opts.getD ⟨false⟩⟩)

/-- The observable state of a handler: the names and attribute lists of
its groups, read through the memory. -/
def readHandler (m : Mem) (h : MemHandler) : List (String × List SAttr) :=
  (readSlice m.gheap h.groups).map (fun g => (g.name, readSlice m.aheap g.attrs))

/-- Lift a read-out group list to the pure group representation. -/
def toGroups (l : List (String × List SAttr)) : List Group :=
  l.map (fun p => ⟨p.1, p.2⟩)

/-- Handle of a handler living in the memory model: project through the
read-out groups. -/
def memHandle (m : Mem) (h : MemHandler) (sh : StoreHeap) (ctx : Ctx)
    (r : SRecord) : Except String (Option (List (String × EField))) :=
  ZerologHandler.Handle ⟨h.log, toGroups (readHandler m h), h.opts⟩ sh ctx r

/-- Well-formedness of a handler value against the memory: the handler
has at least one group, its groups slice points into the heap with
enough backing, and every group's attribute slice either points into the
attribute heap or is a nil slice (length zero). -/
def WF (m : Mem) (h : MemHandler) : Prop :=
  1 ≤ h.groups.len ∧
  h.groups.id < m.gheap.length ∧
  h.groups.len ≤ (heapRead m.gheap h.groups.id).length ∧
  ∀ g ∈ readSlice m.gheap h.groups, g.attrs.id < m.aheap.length ∨ g.attrs.len = 0

/-- Two heaps agree below a bound. -/
def agreeBelow {α : Type} (h h' : HeapOf α) (L : Nat) : Prop :=
  ∀ i, i < L → heapRead h' i = heapRead h i

/-- The group records clone builds (projection of the loop's result). -/
def cloneRefs (h : MemHandler) (m : Mem) (asc : Nat) : List GroupRef :=
  (cloneAttrsLoop m.aheap (readSlice m.gheap h.groups) (h.groups.len - 1) 0 asc).2

/-- The attribute heap clone leaves behind (projection of the loop's
result). -/
def cloneAHeap (h : MemHandler) (m : Mem) (asc : Nat) : HeapOf SAttr :=
  (cloneAttrsLoop m.aheap (readSlice m.gheap h.groups) (h.groups.len - 1) 0 asc).1

/-- A concrete freshly created handler in an empty memory (used to
instantiate the derivation theorem). -/
def memW : Mem × MemHandler := memNewHandler ⟨[], []⟩ ⟨zDebug⟩ none

/- ## Concrete scenarios used by the claims -/

/-- Groups opened in order a, b; x:1 added while a was innermost, y:2
while b was innermost. -/
def hC1 : ZerologHandler :=
  ((((NewZerologHandler ⟨zDebug⟩ (some ⟨true⟩)).WithGroup "a").WithAttrs
      [("x", .vint64 1)]).WithGroup "b").WithAttrs [("y", .vint64 2)]

/-- A record carrying the single attribute z:3. -/
def rC1 : SRecord := ⟨slogInfo, none, 0, "m", [("z", .vint64 3)]⟩

/-- A handler with no named groups open. -/
def hBase : ZerologHandler := NewZerologHandler ⟨zDebug⟩ (some ⟨true⟩)

/-- A record with one string attribute of its own. -/
def rC2 : SRecord := ⟨slogInfo, none, 0, "m", [("rk", .vstr "rv")]⟩

/-- A handler that opened the named group g and never added attributes. -/
def hC4 : ZerologHandler := (NewZerologHandler ⟨zDebug⟩ (some ⟨true⟩)).WithGroup "g"

/-- A record with no attributes. -/
def rC4 : SRecord := ⟨slogInfo, none, 0, "m", []⟩

/-- A record carrying only the zero attribute. -/
def rC5 : SRecord := ⟨slogInfo, none, 0, "m", [zeroAttr]⟩

/- ## Helper lemmas -/

/-- The body of Handle past the level switch always succeeds. -/
theorem handleAt_isOk (h : ZerologHandler) (sh : StoreHeap) (ctx : Ctx)
    (r : SRecord) (zl : Int) : ∃ o, handleAt h sh ctx r zl = Except.ok o := by
  unfold handleAt
  by_cases hE : eventEnabled h.log zl = false
  · simp [hE]
  · simp [hE]

/-- A context with no binding under the zero-store key makes the lookup
miss. -/
theorem noStoreKey_lookup_none (ctx : Ctx) (hn : noStoreKey ctx = true) :
    slogFieldsFromContext ctx = none := by
  induction ctx with
  | nil => rfl
  | cons b rest ih =>
      simp only [noStoreKey, List.all_cons, Bool.and_eq_true, decide_eq_true_eq] at hn
      have hrest := ih hn.2
      simp only [slogFieldsFromContext, ctxValue] at hrest ⊢
      rw [if_neg hn.1]
      exact hrest

/-- When the store lookup misses in both contexts, the group walk does
not depend on the store heap or the context. -/
theorem walkGroups_ctx_irrelevant (sh1 sh2 : StoreHeap) (ctx1 ctx2 : Ctx)
    (h1 : slogFieldsFromContext ctx1 = none)
    (h2 : slogFieldsFromContext ctx2 = none) (recAttrs : List SAttr) :
    ∀ (gs : List Group) (flag : Bool) (ev : Event) (prev : Option (String × Event)),
      walkGroups sh1 ctx1 recAttrs gs flag ev prev
        = walkGroups sh2 ctx2 recAttrs gs flag ev prev := by
  intro gs
  induction gs with
  | nil => intro flag ev prev; rfl
  | cons g rest ih =>
      intro flag ev prev
      by_cases hn : g.name = ""
      · simp [walkGroups, hn, h1, h2]
      · simp only [walkGroups, if_neg hn]
        exact ih false ev _

/- ## Claim theorems -/

/-- C1: for groups opened in order a then b, with x:1 added on a, y:2
added on b and record attribute z:3, Handle emits the structure
a: (x:1, b: (y:2, z:3)): the record attribute is merged into the
innermost group b only, and never into a or the top level. -/
theorem handle_nests_record_attrs_in_innermost_group :
    hC1.groups = [⟨"", []⟩, ⟨"a", [("x", .vint64 1)]⟩, ⟨"b", [("y", .vint64 2)]⟩]
    ∧ hC1.Handle [] backgroundCtx rC1 =
        .ok (some [("level", .strF "info"),
          ("a", .dictF [("x", .intF 1),
            ("b", .dictF [("y", .intF 2), ("z", .intF 3)])]),
          ("message", .strF "m")]) :=
  ⟨rfl, rfl⟩

/-- C2 (evaluation at the failing input): fields attached through
WithSlogFields are bound under logFieldsCtxKey, but Handle's lookup
queries the zero-store key, so the attached field k:v does not appear in
the emitted event even with no groups open. -/
theorem context_fields_not_emitted :
    WithSlogFields [] backgroundCtx [("k", .vstr "v")]
      = ([[("k", .vstr "v")]], [(CtxKey.logFieldsCtxKey, 0)])
    ∧ hBase.Handle [[("k", .vstr "v")]] [(CtxKey.logFieldsCtxKey, 0)] rC2 =
        .ok (some [("level", .strF "info"), ("rk", .strF "rv"),
          ("message", .strF "m")])
    ∧ (["level", "rk", "message"].all (fun s => s ≠ "k")) = true :=
  ⟨rfl, rfl, by decide⟩

/-- C3 (evaluation at the failing input): attaching to a context that
already carries a store does not append in place and does not return the
same context: the buggy lookup misses the existing store, so a second
store is allocated and a new derived context returned, while the first
store keeps only its original fields. -/
theorem withSlogFields_allocates_despite_existing_store :
    (WithSlogFields [[("k1", .vstr "v1")]] [(CtxKey.logFieldsCtxKey, 0)]
        [("k2", .vstr "v2")]).2 ≠ [(CtxKey.logFieldsCtxKey, 0)]
    ∧ (WithSlogFields [[("k1", .vstr "v1")]] [(CtxKey.logFieldsCtxKey, 0)]
        [("k2", .vstr "v2")]).1 = [[("k1", .vstr "v1")], [("k2", .vstr "v2")]] :=
  ⟨by decide, rfl⟩

/-- C4 (evaluation at the failing input): a handler that opened the
named group g and never populated it, handling a record with no
attributes, emits the event with the field g holding an empty nested
dictionary: the group name does appear in the output. -/
theorem empty_named_group_is_emitted :
    hC4.Handle [] backgroundCtx rC4 =
      .ok (some [("level", .strF "info"), ("g", .dictF []),
        ("message", .strF "m")]) :=
  rfl

/-- C5 (evaluation at the failing input): the zero attribute (empty key,
zero value of kind KindAny holding nil) is not skipped: appendAttrToEvent
sets a field for it via the KindAny branch, and it reaches the emitted
event. -/
theorem zero_attr_is_emitted :
    (appendSAttrToEvent zeroAttr dictNew).fields = [("", .anyF .anil)]
    ∧ hBase.Handle [] backgroundCtx rC5 =
        .ok (some [("level", .strF "info"), ("", .anyF .anil),
          ("message", .strF "m")]) :=
  ⟨rfl, rfl⟩

/-- C7: Handle fails exactly on levels outside the four recognized
severities, with the "unsupported log level" error and no emission; on a
recognized level it succeeds, emitting nothing when the sink gate is
closed. -/
theorem handle_fails_iff_unsupported_level (h : ZerologHandler)
    (sh : StoreHeap) (ctx : Ctx) (r : SRecord) :
    ((∃ o, h.Handle sh ctx r = .ok o) ↔ (slogLevelToZerolog r.level).isSome = true)
    ∧ (slogLevelToZerolog r.level = none →
        h.Handle sh ctx r = .error ("unsupported log level " ++ slogLevelString r.level))
    ∧ (∀ zl, slogLevelToZerolog r.level = some zl →
        eventEnabled h.log zl = false → h.Handle sh ctx r = .ok none) := by
  unfold ZerologHandler.Handle
  cases hm : slogLevelToZerolog r.level with
  | none => simp
  | some zl =>
      refine ⟨by simpa using handleAt_isOk h sh ctx r zl, by simp, ?_⟩
      intro zl' hz hE
      cases hz
      unfold handleAt
      simp [hE]

/-- C7 witness: at level 1 (unrecognized) Handle fails with the
unsupported-level error naming INFO+1. -/
theorem handle_fails_iff_unsupported_level_witness :
    hBase.Handle [] backgroundCtx ⟨1, none, 0, "m", []⟩ =
      .error ("unsupported log level " ++ slogLevelString 1) :=
  (handle_fails_iff_unsupported_level hBase [] backgroundCtx
      ⟨1, none, 0, "m", []⟩).2.1 rfl

/-- C8: on each of the four recognized levels Enabled returns exactly
the sink's enablement for the mapped level and Handle emits an event iff
that gate is open; on every unrecognized level Enabled returns false. -/
theorem enabled_matches_sink (h : ZerologHandler) (ctx : Ctx) (sh : StoreHeap) :
    (∀ lvl zl, slogLevelToZerolog lvl = some zl →
        h.Enabled ctx lvl = eventEnabled h.log zl)
    ∧ (∀ lvl, slogLevelToZerolog lvl = none → h.Enabled ctx lvl = false)
    ∧ (∀ r zl, slogLevelToZerolog r.level = some zl →
        ((∃ out, h.Handle sh ctx r = .ok (some out)) ↔
          eventEnabled h.log zl = true)) := by
  refine ⟨?_, ?_, ?_⟩
  · intro lvl zl hm
    unfold slogLevelToZerolog at hm
    unfold ZerologHandler.Enabled
    split_ifs at hm ⊢
    all_goals simp_all
  · intro lvl hm
    unfold slogLevelToZerolog at hm
    unfold ZerologHandler.Enabled
    split_ifs at hm ⊢
    all_goals simp_all
  · intro r zl hm
    unfold ZerologHandler.Handle
    rw [hm]
    unfold handleAt
    by_cases hE : eventEnabled h.log zl = false
    · simp [hE]
    · simp [hE]

/-- C8 witness: with a logger at level warn, Enabled agrees with the
sink on the info level (both closed). -/
theorem enabled_matches_sink_witness :
    (NewZerologHandler ⟨zWarn⟩ none).Enabled backgroundCtx slogInfo
      = eventEnabled ⟨zWarn⟩ zInfo :=
  (enabled_matches_sink (NewZerologHandler ⟨zWarn⟩ none) backgroundCtx []).1
    slogInfo zInfo rfl

/-- C9: Handle's output is independent of the context (and of the store
heap): for contexts with no binding under the zero-store lookup key —
which is all contexts clients can build, since WithSlogFields binds under
logFieldsCtxKey and the key types are unexported — the store lookup
misses and Handle produces identical output; WithSlogFields preserves
that class, which contains the background context. -/
theorem handle_independent_of_context (h : ZerologHandler)
    (sh1 sh2 : StoreHeap) (ctx1 ctx2 : Ctx) (r : SRecord)
    (h1 : noStoreKey ctx1 = true) (h2 : noStoreKey ctx2 = true) :
    h.Handle sh1 ctx1 r = h.Handle sh2 ctx2 r
    ∧ (∀ sh ctx attrs, noStoreKey ctx = true →
        noStoreKey (WithSlogFields sh ctx attrs).2 = true)
    ∧ noStoreKey backgroundCtx = true := by
  refine ⟨?_, ?_, rfl⟩
  · unfold ZerologHandler.Handle
    cases slogLevelToZerolog r.level with
    | none => rfl
    | some zl =>
        unfold handleAt
        by_cases hE : eventEnabled h.log zl = false
        · simp [hE]
        · simp only [hE, if_false]
          rw [walkGroups_ctx_irrelevant sh1 sh2 ctx1 ctx2
            (noStoreKey_lookup_none ctx1 h1) (noStoreKey_lookup_none ctx2 h2)]
  · intro sh ctx attrs hn
    unfold WithSlogFields
    cases hm : slogFieldsFromContext ctx with
    | none => simpa [noStoreKey] using hn
    | some id => exact hn

/-- C9 witness: at the background context and a context produced by
WithSlogFields, Handle gives the same output. -/
theorem handle_independent_of_context_witness :
    hBase.Handle [] backgroundCtx rC2
      = hBase.Handle [[("k", .vstr "v")]] [(CtxKey.logFieldsCtxKey, 0)] rC2 :=
  (handle_independent_of_context hBase [] [[("k", .vstr "v")]] backgroundCtx
      [(CtxKey.logFieldsCtxKey, 0)] rC2 (by decide) (by decide)).1

/-- Every value tree has positive size. -/
theorem SValue.size_pos (v : SValue) : 1 ≤ SValue.size v := by
  cases v <;> simp [SValue.size]

/-- Member-list part of fuel correctness, given the attribute-level
statement at the same fuel (the list loop passes the fuel unchanged). -/
theorem appendAttrListFuel_correct_aux (n : Nat)
    (hAttr : ∀ k v e, SValue.size v ≤ n →
      appendAttrFuel n k v e = some (appendAttrToEvent k v e)) :
    ∀ l e, AttrList.sizeAttrs l ≤ n →
      appendAttrListFuel n l e = some (appendAttrListToEvent l e)
  | .anil, e, _ => by simp [appendAttrListFuel, appendAttrListToEvent]
  | .acons k v rest, e, hsize => by
      have hv : SValue.size v ≤ n := by
        simp [AttrList.sizeAttrs] at hsize; omega
      have hrest : AttrList.sizeAttrs rest ≤ n := by
        simp [AttrList.sizeAttrs] at hsize; omega
      have h1 := hAttr k v e hv
      have h2 := appendAttrListFuel_correct_aux n hAttr rest
        (appendAttrToEvent k v e) hrest
      simp [appendAttrListFuel, h1, appendAttrListToEvent, h2]

/-- Fuel correctness of the projection: when the fuel covers the size of
the value tree, the fuelled recursion succeeds and computes exactly what
appendAttrToEvent computes (attribute level and member-list level,
proved simultaneously by strong induction on the fuel). -/
theorem appendAttrFuel_correct (n : Nat) :
    (∀ k v e, SValue.size v ≤ n →
      appendAttrFuel n k v e = some (appendAttrToEvent k v e))
    ∧ (∀ l e, AttrList.sizeAttrs l ≤ n →
      appendAttrListFuel n l e = some (appendAttrListToEvent l e)) := by
  induction n using Nat.strong_induction_on with
  | _ n ih =>
    have hAttr : ∀ k v e, SValue.size v ≤ n →
        appendAttrFuel n k v e = some (appendAttrToEvent k v e) := by
      intro k v e hsize
      cases n with
      | zero => exact absurd hsize (by have := SValue.size_pos v; omega)
      | succ m =>
          cases v with
          | vgroup g =>
              have hg : AttrList.sizeAttrs g ≤ m := by
                simp [SValue.size] at hsize; omega
              have hrec := (ih m (Nat.lt_succ_self m)).2 g dictNew hg
              simp [appendAttrFuel, hrec, appendAttrToEvent]
          | vlogValuer r =>
              have hr : SValue.size r ≤ m := by
                simp [SValue.size] at hsize; omega
              have hrec := (ih m (Nat.lt_succ_self m)).1 k r e hr
              simp [appendAttrFuel, hrec, appendAttrToEvent]
          | vbool b => simp [appendAttrFuel, appendAttrToEvent]
          | vint64 i => simp [appendAttrFuel, appendAttrToEvent]
          | vuint64 u => simp [appendAttrFuel, appendAttrToEvent]
          | vfloat64 x => simp [appendAttrFuel, appendAttrToEvent]
          | vdur d => simp [appendAttrFuel, appendAttrToEvent]
          | vtime t => simp [appendAttrFuel, appendAttrToEvent]
          | vstr s => simp [appendAttrFuel, appendAttrToEvent]
          | vany a => simp [appendAttrFuel, appendAttrToEvent]
    exact ⟨hAttr, appendAttrListFuel_correct_aux n hAttr⟩

/-- C10: appendAttrToEvent terminates on every finite attribute value
tree, with recursion depth bounded by the tree's size: running the
recursion with that much fuel succeeds and agrees with the unbounded
recursion.  The recursion descends only into group members and resolved
lazy values and carries no bound of its own. -/
theorem appendAttrToEvent_terminates (k : String) (v : SValue) (e : Event) :
    appendAttrFuel (SValue.size v) k v e = some (appendAttrToEvent k v e) :=
  (appendAttrFuel_correct (SValue.size v)).1 k v e le_rfl

/- ## Memory-model lemmas for the derivation claims -/

/-- Heap reads below the old length are unaffected by allocation. -/
theorem heapRead_append {α : Type} (h ext : HeapOf α) (i : Nat)
    (hi : i < h.length) : heapRead (h ++ ext) i = heapRead h i := by
  unfold heapRead
  rw [List.getD_eq_getElem?_getD, List.getD_eq_getElem?_getD,
    List.getElem?_append_left hi]

/-- Heap reads at other ids are unaffected by a write. -/
theorem heapRead_set_ne {α : Type} (h : HeapOf α) (j : Nat) (arr : List α)
    (i : Nat) (hne : j ≠ i) : heapRead (heapWrite h j arr) i = heapRead h i := by
  unfold heapRead heapWrite
  rw [List.getD_eq_getElem?_getD, List.getD_eq_getElem?_getD,
    List.getElem?_set_ne hne]

/-- Reading the array just allocated at the end of the heap. -/
theorem heapRead_append_self {α : Type} (h : HeapOf α) (arr : List α) :
    heapRead (h ++ [arr]) h.length = arr := by
  unfold heapRead
  rw [List.getD_eq_getElem?_getD, List.getElem?_concat_length]
  rfl

/-- A slice whose id lies below the agreement bound (or which is empty)
reads the same in agreeing heaps. -/
theorem readSlice_congr {α : Type} (h h' : HeapOf α) (L : Nat) (s : Slice)
    (hs : s.id < L ∨ s.len = 0) (hag : agreeBelow h h' L) :
    readSlice h' s = readSlice h s := by
  rcases hs with hid | hlen
  · unfold readSlice
    rw [hag s.id hid]
  · unfold readSlice
    rw [hlen]
    simp

/-- The element a getD at an index inside the list returns is a member. -/
theorem getD_mem_of_lt {α : Type} (l : List α) (i : Nat) (d : α)
    (hi : i < l.length) : l.getD i d ∈ l := by
  rw [List.getD_eq_getElem?_getD, List.getElem?_eq_getElem hi]
  simp

/-- A slice with enough backing reads exactly len elements. -/
theorem readSlice_length {α : Type} (h : HeapOf α) (s : Slice)
    (hb : s.len ≤ (heapRead h s.id).length) : (readSlice h s).length = s.len := by
  unfold readSlice
  rw [List.length_take]
  omega

/-- sliceAppend to a slice whose backing array lies at or beyond the
agreement bound preserves all reads below the bound and never shrinks
the heap. -/
theorem sliceAppend_agree {α : Type} (h : HeapOf α) (s : Slice) (xs : List α)
    (L : Nat) (hL : L ≤ h.length) (hid : L ≤ s.id) :
    agreeBelow h (sliceAppend h s xs).1 L ∧ h.length ≤ (sliceAppend h s xs).1.length := by
  unfold sliceAppend
  by_cases hc : s.len + xs.length ≤ s.cap
  · simp only [hc, if_true]
    refine ⟨?_, ?_⟩
    · intro i hi
      exact heapRead_set_ne h s.id _ i (by omega)
    · simp [heapWrite]
  · simp only [hc, if_false]
    refine ⟨?_, ?_⟩
    · intro i hi
      exact heapRead_append h _ i (by omega)
    · simp [allocH]

/-- Writing an array in place does not change the heap size. -/
theorem heapWrite_length {α : Type} (h : HeapOf α) (j : Nat) (arr : List α) :
    (heapWrite h j arr).length = h.length := by
  simp [heapWrite]

/-- Heap-extension facts compose. -/
theorem exists_ext_trans {α : Type} {a b c : HeapOf α}
    (h1 : ∃ e1, b = a ++ e1) (h2 : ∃ e2, c = b ++ e2) :
    ∃ e3, c = a ++ e3 := by
  obtain ⟨e1, he1⟩ := h1
  obtain ⟨e2, he2⟩ := h2
  exact ⟨e1 ++ e2, by rw [he2, he1, List.append_assoc]⟩

/-- What the clone loop does to the attribute heap and the ids it hands
out: the heap is only extended, one record per source group is produced,
and every produced record points at or beyond the old heap end. -/
theorem cloneAttrsLoop_spec (gs : List GroupRef) :
    ∀ (aheap : HeapOf SAttr) (lastID i addCap : Nat),
      (∃ ext, (cloneAttrsLoop aheap gs lastID i addCap).1 = aheap ++ ext)
      ∧ (cloneAttrsLoop aheap gs lastID i addCap).2.length = gs.length
      ∧ ∀ r ∈ (cloneAttrsLoop aheap gs lastID i addCap).2,
          aheap.length ≤ r.attrs.id := by
  induction gs with
  | nil =>
      intro aheap lastID i addCap
      exact ⟨⟨[], by simp [cloneAttrsLoop]⟩, by simp [cloneAttrsLoop],
        by simp [cloneAttrsLoop]⟩
  | cons g rest ih =>
      intro aheap lastID i addCap
      simp only [cloneAttrsLoop]
      refine ⟨exists_ext_trans ⟨_, rfl⟩ ((ih _ lastID (i + 1) addCap).1), ?_, ?_⟩
      · simpa using (ih _ lastID (i + 1) addCap).2.1
      · intro r hr
        simp only [List.mem_cons] at hr
        rcases hr with hr | hr
        · subst hr
          simp [allocH]
        · have := (ih _ lastID (i + 1) addCap).2.2 r hr
          simp only [allocH, List.length_append, List.length_cons,
            List.length_nil] at this
          omega

/-- clone, written out: it allocates one fresh groups array (holding the
cloned refs padded by the extra group capacity) and extends the
attribute heap with the cloned attribute arrays; the new handler points
at the fresh groups array. -/
theorem clone_eq (h : MemHandler) (m : Mem) (agc asc : Nat) :
    h.clone m agc asc =
      (⟨m.gheap ++ [cloneRefs h m asc ++ List.replicate agc defaultGroupRef],
          cloneAHeap h m asc⟩,
        ⟨h.log, ⟨m.gheap.length, h.groups.len, h.groups.len + agc⟩, h.opts⟩) :=
  rfl

/-- The cloned attribute heap extends the original. -/
theorem cloneAHeap_ext (h : MemHandler) (m : Mem) (asc : Nat) :
    ∃ ext, cloneAHeap h m asc = m.aheap ++ ext :=
  (cloneAttrsLoop_spec (readSlice m.gheap h.groups) m.aheap
    (h.groups.len - 1) 0 asc).1

/-- The cloned refs are as many as the source groups and point past the
original attribute heap. -/
theorem cloneRefs_spec (h : MemHandler) (m : Mem) (asc : Nat) :
    (cloneRefs h m asc).length = (readSlice m.gheap h.groups).length
    ∧ ∀ r ∈ cloneRefs h m asc, m.aheap.length ≤ r.attrs.id :=
  ⟨(cloneAttrsLoop_spec (readSlice m.gheap h.groups) m.aheap
      (h.groups.len - 1) 0 asc).2.1,
    (cloneAttrsLoop_spec (readSlice m.gheap h.groups) m.aheap
      (h.groups.len - 1) 0 asc).2.2⟩

/-- WithAttrs only writes to storage allocated by its clone: all heap
reads below the original heap bounds are preserved, and the heaps never
shrink. -/
theorem withAttrs_agree (h : MemHandler) (m : Mem) (attrs : List SAttr)
    (hwf : WF m h) :
    agreeBelow m.gheap (h.WithAttrs m attrs).1.gheap m.gheap.length
    ∧ agreeBelow m.aheap (h.WithAttrs m attrs).1.aheap m.aheap.length
    ∧ m.gheap.length ≤ (h.WithAttrs m attrs).1.gheap.length
    ∧ m.aheap.length ≤ (h.WithAttrs m attrs).1.aheap.length := by
  obtain ⟨hw1, hw2, hw3, hw4⟩ := hwf
  obtain ⟨aext, haext⟩ := cloneAHeap_ext h m attrs.length
  obtain ⟨hreflen, hrefids⟩ := cloneRefs_spec h m attrs.length
  have hgslen : (readSlice m.gheap h.groups).length = h.groups.len :=
    readSlice_length m.gheap h.groups hw3
  have hlast : h.groups.len - 1 < (cloneRefs h m attrs.length).length := by
    rw [hreflen, hgslen]
    omega
  have hcg : (h.clone m 0 attrs.length).1.gheap
      = m.gheap ++ [cloneRefs h m attrs.length
          ++ List.replicate 0 defaultGroupRef] := rfl
  have hca : (h.clone m 0 attrs.length).1.aheap = m.aheap ++ aext := haext
  have hgid : (h.clone m 0 attrs.length).2.groups.id = m.gheap.length := rfl
  have hglen : (h.clone m 0 attrs.length).2.groups.len = h.groups.len := rfl
  have hreadgroups :
      readSlice (h.clone m 0 attrs.length).1.gheap
        (h.clone m 0 attrs.length).2.groups = cloneRefs h m attrs.length := by
    unfold readSlice
    rw [hcg, hgid, hglen, heapRead_append_self]
    simp only [List.replicate_zero, List.append_nil]
    have hlen2 : h.groups.len = (cloneRefs h m attrs.length).length := by omega
    rw [hlen2, List.take_length]
  have hlastmem :
      (readSlice (h.clone m 0 attrs.length).1.gheap
          (h.clone m 0 attrs.length).2.groups).getD
        ((h.clone m 0 attrs.length).2.groups.len - 1) defaultGroupRef
        ∈ cloneRefs h m attrs.length := by
    rw [hreadgroups, hglen]
    exact getD_mem_of_lt _ _ _ hlast
  have hlastid := hrefids _ hlastmem
  have happ := sliceAppend_agree (h.clone m 0 attrs.length).1.aheap
    ((readSlice (h.clone m 0 attrs.length).1.gheap
        (h.clone m 0 attrs.length).2.groups).getD
      ((h.clone m 0 attrs.length).2.groups.len - 1) defaultGroupRef).attrs
    attrs m.aheap.length (by rw [hca]; simp) hlastid
  refine ⟨?_, ?_, ?_, ?_⟩
  · intro i hi
    calc heapRead (h.WithAttrs m attrs).1.gheap i
        = heapRead (h.clone m 0 attrs.length).1.gheap i :=
          heapRead_set_ne _ _ _ _ (by rw [hgid]; omega)
      _ = heapRead m.gheap i := by rw [hcg]; exact heapRead_append _ _ i hi
  · intro i hi
    calc heapRead (h.WithAttrs m attrs).1.aheap i
        = heapRead (h.clone m 0 attrs.length).1.aheap i := happ.1 i hi
      _ = heapRead m.aheap i := by rw [hca]; exact heapRead_append _ _ i hi
  · calc m.gheap.length
        ≤ (h.clone m 0 attrs.length).1.gheap.length := by rw [hcg]; simp
      _ = (h.WithAttrs m attrs).1.gheap.length := (heapWrite_length _ _ _).symm
  · calc m.aheap.length
        ≤ (h.clone m 0 attrs.length).1.aheap.length := by rw [hca]; simp
      _ ≤ (h.WithAttrs m attrs).1.aheap.length := happ.2

/-- WithGroup only writes to storage allocated by its clone: all heap
reads below the original heap bounds are preserved, and the heaps never
shrink. -/
theorem withGroup_agree (h : MemHandler) (m : Mem) (name : String) :
    agreeBelow m.gheap (h.WithGroup m name).1.gheap m.gheap.length
    ∧ agreeBelow m.aheap (h.WithGroup m name).1.aheap m.aheap.length
    ∧ m.gheap.length ≤ (h.WithGroup m name).1.gheap.length
    ∧ m.aheap.length ≤ (h.WithGroup m name).1.aheap.length := by
  by_cases hn : name = ""
  · have hid : h.WithGroup m name = (m, h) := by
      unfold MemHandler.WithGroup
      rw [if_pos hn]
    rw [hid]
    exact ⟨fun i _ => rfl, fun i _ => rfl, le_rfl, le_rfl⟩
  · obtain ⟨aext, haext⟩ := cloneAHeap_ext h m 0
    have hcg : (h.clone m 1 0).1.gheap
        = m.gheap ++ [cloneRefs h m 0 ++ List.replicate 1 defaultGroupRef] := rfl
    have hca : (h.clone m 1 0).1.aheap = m.aheap ++ aext := haext
    have hgid : (h.clone m 1 0).2.groups.id = m.gheap.length := rfl
    have happ := sliceAppend_agree (h.clone m 1 0).1.gheap
      (h.clone m 1 0).2.groups [⟨name, nilSlice⟩] m.gheap.length
      (by rw [hcg]; simp) (le_of_eq hgid.symm)
    have hW : (h.WithGroup m name).1 =
        ⟨(sliceAppend (h.clone m 1 0).1.gheap (h.clone m 1 0).2.groups
            [⟨name, nilSlice⟩]).1, (h.clone m 1 0).1.aheap⟩ := by
      unfold MemHandler.WithGroup
      rw [if_neg hn]
    rw [hW]
    refine ⟨?_, ?_, ?_, ?_⟩
    · intro i hi
      calc heapRead (sliceAppend (h.clone m 1 0).1.gheap
              (h.clone m 1 0).2.groups [⟨name, nilSlice⟩]).1 i
          = heapRead (h.clone m 1 0).1.gheap i := happ.1 i hi
        _ = heapRead m.gheap i := by rw [hcg]; exact heapRead_append _ _ i hi
    · intro i hi
      show heapRead (h.clone m 1 0).1.aheap i = heapRead m.aheap i
      rw [hca]
      exact heapRead_append _ _ i hi
    · refine le_trans ?_ happ.2
      rw [hcg]
      simp
    · show m.aheap.length ≤ (h.clone m 1 0).1.aheap.length
      rw [hca]
      simp

/-- Well-formedness transfers along agreeing, non-shrinking memories. -/
theorem WF_mono (m m' : Mem) (h : MemHandler) (hwf : WF m h)
    (hg : agreeBelow m.gheap m'.gheap m.gheap.length)
    (hgl : m.gheap.length ≤ m'.gheap.length)
    (hal : m.aheap.length ≤ m'.aheap.length) : WF m' h := by
  obtain ⟨h1, h2, h3, h4⟩ := hwf
  have hread : heapRead m'.gheap h.groups.id = heapRead m.gheap h.groups.id :=
    hg h.groups.id h2
  have hrs : readSlice m'.gheap h.groups = readSlice m.gheap h.groups :=
    readSlice_congr m.gheap m'.gheap m.gheap.length h.groups (Or.inl h2) hg
  refine ⟨h1, lt_of_lt_of_le h2 hgl, by rw [hread]; exact h3, ?_⟩
  intro g hgm
  rw [hrs] at hgm
  rcases h4 g hgm with hid | hlen
  · exact Or.inl (lt_of_lt_of_le hid hal)
  · exact Or.inr hlen

/-- The observable group state of a well-formed handler is the same in
any agreeing memory. -/
theorem readHandler_congr (m m' : Mem) (h : MemHandler) (hwf : WF m h)
    (hg : agreeBelow m.gheap m'.gheap m.gheap.length)
    (ha : agreeBelow m.aheap m'.aheap m.aheap.length) :
    readHandler m' h = readHandler m h := by
  unfold readHandler
  rw [readSlice_congr m.gheap m'.gheap m.gheap.length h.groups
    (Or.inl hwf.2.1) hg]
  apply List.map_congr_left
  intro g hgm
  rw [readSlice_congr m.aheap m'.aheap m.aheap.length g.attrs
    (hwf.2.2.2 g hgm) ha]

/-- C6: deriving first H2 = H.WithAttrs(A) and then H3 = H.WithGroup(g)
from the same well-formed handler H leaves H's own group sequence (names
and attribute lists, as read through memory) bit-for-bit unchanged, so
H's Handle output after both derivations is identical to its output
before them: derivation writes only to freshly allocated backing
storage, never to storage owned by the ancestor. -/
theorem derivations_leave_ancestor_unchanged (m : Mem) (h : MemHandler)
    (A : List SAttr) (g : String) (hwf : WF m h) :
    readHandler (h.WithGroup (h.WithAttrs m A).1 g).1 h = readHandler m h
    ∧ ∀ (sh : StoreHeap) (ctx : Ctx) (r : SRecord),
        memHandle (h.WithGroup (h.WithAttrs m A).1 g).1 h sh ctx r
          = memHandle m h sh ctx r := by
  obtain ⟨hg2, ha2, hgl2, hal2⟩ := withAttrs_agree h m A hwf
  obtain ⟨hg3, ha3, hgl3, hal3⟩ := withGroup_agree h (h.WithAttrs m A).1 g
  have hgc : agreeBelow m.gheap (h.WithGroup (h.WithAttrs m A).1 g).1.gheap
      m.gheap.length := by
    intro i hi
    rw [hg3 i (lt_of_lt_of_le hi hgl2), hg2 i hi]
  have hac : agreeBelow m.aheap (h.WithGroup (h.WithAttrs m A).1 g).1.aheap
      m.aheap.length := by
    intro i hi
    rw [ha3 i (lt_of_lt_of_le hi hal2), ha2 i hi]
  have hrh := readHandler_congr m (h.WithGroup (h.WithAttrs m A).1 g).1 h
    hwf hgc hac
  refine ⟨hrh, ?_⟩
  intro sh ctx r
  unfold memHandle
  rw [hrh]

/-- C6 witness: a freshly created handler in an empty memory, derived
with one attribute and then with a group, reads back unchanged. -/
theorem derivations_leave_ancestor_unchanged_witness :
    readHandler (memW.2.WithGroup
        (memW.2.WithAttrs memW.1 [("x", .vint64 1)]).1 "g").1 memW.2
      = readHandler memW.1 memW.2 :=
  (derivations_leave_ancestor_unchanged memW.1 memW.2 [("x", .vint64 1)] "g"
    (by constructor <;> simp [memW, memNewHandler, allocH, readSlice, heapRead,
      defaultGroupRef, nilSlice])).1

end Xslog
